import Mathlib

/-!
Verification development for the hex-grid collection game
(`src/world.ts`, `src/generation.ts`, `src/positioning.ts`, `src/player.ts`,
`src/serialization.ts`, `src/main.ts`).

JavaScript numbers are modelled by exact arithmetic.  Every geographic
quantity produced by the source lives in the ring ℚ[√3] (the code's only
irrational constant is `Math.sqrt(3)`), which we represent computably by
pairs `a + b·√3` of rationals.
-/

/-- Element `a + b·√3` of the ring ℚ[√3]; the exact model of the JS numbers
produced by the hex geometry in `world.ts` (whose only irrational input is
`Math.sqrt(3)`). -/
structure Q3 where
  a : ℚ
  b : ℚ
deriving DecidableEq

instance : Add Q3 := ⟨fun x y => ⟨x.a + y.a, x.b + y.b⟩⟩

instance : Sub Q3 := ⟨fun x y => ⟨x.a - y.a, x.b - y.b⟩⟩

instance : Neg Q3 := ⟨fun x => ⟨-x.a, -x.b⟩⟩

/-- Multiplication in ℚ[√3]: `(a₁+b₁√3)(a₂+b₂√3) = a₁a₂+3b₁b₂ + (a₁b₂+b₁a₂)√3`. -/
instance : Mul Q3 := ⟨fun x y => ⟨x.a * y.a + 3 * (x.b * y.b), x.a * y.b + x.b * y.a⟩⟩

/-- Embedding of a rational JS number into the model. -/
def Q3.ofRat (q : ℚ) : Q3 := ⟨q, 0⟩

/-- The constant `Math.sqrt(3)` of `world.ts`, exact. -/
def sqrt3 : Q3 := ⟨0, 1⟩

@[simp] theorem Q3.add_a (x y : Q3) : (x + y).a = x.a + y.a := rfl

@[simp] theorem Q3.add_b (x y : Q3) : (x + y).b = x.b + y.b := rfl

@[simp] theorem Q3.sub_a (x y : Q3) : (x - y).a = x.a - y.a := rfl

@[simp] theorem Q3.sub_b (x y : Q3) : (x - y).b = x.b - y.b := rfl

@[simp] theorem Q3.mul_a (x y : Q3) : (x * y).a = x.a * y.a + 3 * (x.b * y.b) := rfl

@[simp] theorem Q3.mul_b (x y : Q3) : (x * y).b = x.a * y.b + x.b * y.a := rfl

@[simp] theorem Q3.ofRat_a (q : ℚ) : (Q3.ofRat q).a = q := rfl

@[simp] theorem Q3.ofRat_b (q : ℚ) : (Q3.ofRat q).b = 0 := rfl

@[simp] theorem sqrt3_a : sqrt3.a = 0 := rfl

@[simp] theorem sqrt3_b : sqrt3.b = 1 := rfl

theorem Q3.ext_iff {x y : Q3} : x = y ↔ x.a = y.a ∧ x.b = y.b := by
  constructor
  · rintro rfl; exact ⟨rfl, rfl⟩
  · rcases x with ⟨xa, xb⟩; rcases y with ⟨ya, yb⟩
    rintro ⟨h1, h2⟩; cases h1; cases h2; rfl

/-- Floor of `√x` for a nonnegative rational `x`, computed exactly:
`⌊√(p/q)⌋ = ⌊√(p·q)⌋ / q` via `Nat.sqrt`. -/
def ratSqrtFloor (x : ℚ) : ℤ :=
  ((Nat.sqrt (x.num.toNat * x.den) / x.den : ℕ) : ℤ)

/-- Decides `t ≤ b·√3` for rationals `t b` by sign analysis and squaring. -/
def leSqrt3Mul (t b : ℚ) : Bool :=
  if 0 ≤ t then (if 0 ≤ b then (if t * t ≤ 3 * (b * b) then true else false) else false)
  else (if 0 ≤ b then true else (if 3 * (b * b) ≤ t * t then true else false))

/-- Floor `⌊b·√3⌋` for a rational `b`; for `b ≠ 0` the value `b·√3` is
irrational, so for negative `b` it is `-⌊|b|·√3⌋ - 1`. -/
def floorMul3 (b : ℚ) : ℤ :=
  if b = 0 then 0
  else if 0 < b then ratSqrtFloor (3 * (b * b))
  else -ratSqrtFloor (3 * (b * b)) - 1

/-- Exact floor `⌊a + b·√3⌋` on ℚ[√3].  Writing `m = ⌊b·√3⌋` and
`f = a - ⌊a⌋ ∈ [0,1)`, we have `⌊a + b√3⌋ = ⌊a⌋ + m + [b√3 ≥ m + 1 - f]`. -/
def floorQ3 (v : Q3) : ℤ :=
  ⌊v.a⌋ + floorMul3 v.b +
    (if leSqrt3Mul ((floorMul3 v.b : ℚ) + 1 - (v.a - (⌊v.a⌋ : ℚ))) v.b then 1 else 0)

/-- The `Math.round` of `world.ts` under exact real semantics:
`Math.round x = ⌊x + 1/2⌋` (ties round toward +∞, as in JS). -/
def jsRound (v : Q3) : ℤ := floorQ3 (v + Q3.ofRat (1 / 2))

theorem floorQ3_rat (q : ℚ) : floorQ3 ⟨q, 0⟩ = ⌊q⌋ := by
  have hf : q - (⌊q⌋ : ℚ) < 1 := by
    have := Int.sub_one_lt_floor q
    linarith
  have hcond :
      leSqrt3Mul ((floorMul3 (0 : ℚ) : ℚ) + 1 - (q - (⌊q⌋ : ℚ))) (0 : ℚ) = false := by
    have hm : floorMul3 (0 : ℚ) = 0 := by simp [floorMul3]
    rw [hm]
    have ht : (0 : ℚ) < ((0 : ℤ) : ℚ) + 1 - (q - (⌊q⌋ : ℚ)) := by
      push_cast; linarith
    simp only [leSqrt3Mul]
    split_ifs with h1 h2 h3 <;> first | rfl | (exfalso; nlinarith [ht])
  have hun : floorQ3 ⟨q, 0⟩ = ⌊q⌋ + floorMul3 (0 : ℚ) +
      (if leSqrt3Mul ((floorMul3 (0 : ℚ) : ℚ) + 1 - (q - (⌊q⌋ : ℚ))) (0 : ℚ)
        then 1 else 0) := rfl
  rw [hun, hcond]
  simp [floorMul3]

theorem jsRound_rat (q : ℚ) : jsRound (Q3.ofRat q) = ⌊q + 1 / 2⌋ := by
  have : Q3.ofRat q + Q3.ofRat (1 / 2) = ⟨q + 1 / 2, 0⟩ := by
    simp [Q3.ext_iff]
  rw [jsRound, this, floorQ3_rat]

theorem jsRound_int (n : ℤ) : jsRound (Q3.ofRat (n : ℚ)) = n := by
  rw [jsRound_rat]
  rw [Int.floor_eq_iff]
  constructor
  · linarith
  · linarith

/-- Geographic point (Leaflet `LatLng`), exact coordinates in ℚ[√3]. -/
structure GeoPoint where
  lat : Q3
  lng : Q3
deriving DecidableEq

/-- The `SharedCellData` of `world.ts`: grid origin and cell size
(default `0.00005 = 1/20000`). -/
structure SharedCellData where
  origin : GeoPoint
  size : ℚ
deriving DecidableEq

/-- The `SharedCellData.getCenter` of `world.ts`:
`lng = origin.lng + size * (3/2 * q)`,
`lat = origin.lat + size * ((√3/2) * q + √3 * r)`. -/
def SharedCellData.getCenter (sd : SharedCellData) (q r : ℤ) : GeoPoint :=
  { lat := sd.origin.lat +
      Q3.ofRat sd.size *
        (sqrt3 * Q3.ofRat (1 / 2) * Q3.ofRat (q : ℚ) + sqrt3 * Q3.ofRat (r : ℚ)),
    lng := sd.origin.lng + Q3.ofRat (sd.size * (3 / 2 * (q : ℚ))) }

/-- The `World.latLngToHex` of `world.ts`:
`q = round((2/3) * x / size)`, `r = round((-1/3 * x + (√3/3) * y) / size)`
with `x = lng - origin.lng`, `y = lat - origin.lat`.  Division by `size` is
multiplication by `size⁻¹`. -/
def latLngToHex (sd : SharedCellData) (lat lng : Q3) : ℤ × ℤ :=
  (jsRound (Q3.ofRat (2 / 3) * (lng - sd.origin.lng) * Q3.ofRat sd.size⁻¹),
   jsRound ((Q3.ofRat (-(1 / 3)) * (lng - sd.origin.lng) +
       sqrt3 * Q3.ofRat (1 / 3) * (lat - sd.origin.lat)) * Q3.ofRat sd.size⁻¹))

/-- Hex distance of `world.ts` (`updateCellsAround`/`generateCellsAround`):
`(|Δq| + |Δr| + |Δq+Δr|) / 2`.  The numerator is always even, so integer
division is exact. -/
def hexDist (dq dr : ℤ) : ℤ := (|dq| + |dr| + |dq + dr|) / 2

theorem hexDist_mul_two (dq dr : ℤ) : 2 * hexDist dq dr = |dq| + |dr| + |dq + dr| := by
  rcases abs_cases dq with ⟨h1, _⟩ | ⟨h1, _⟩ <;>
    rcases abs_cases dr with ⟨h2, _⟩ | ⟨h2, _⟩ <;>
      rcases abs_cases (dq + dr) with ⟨h3, _⟩ | ⟨h3, _⟩ <;>
        rw [hexDist, h1, h2, h3] <;> omega

/-- The integer interval `[lo, hi]` as a list, in loop order
(`for (let v = lo; v <= hi; v++)`). -/
def intRange (lo hi : ℤ) : List ℤ :=
  (List.range (hi + 1 - lo).toNat).map (fun i : ℕ => lo + (i : ℤ))

theorem mem_intRange (lo hi v : ℤ) : v ∈ intRange lo hi ↔ lo ≤ v ∧ v ≤ hi := by
  rw [intRange]
  constructor
  · intro h
    obtain ⟨i, hi1, hrfl⟩ := List.mem_map.mp h
    have hlt := List.mem_range.mp hi1
    subst hrfl
    omega
  · intro hb
    exact List.mem_map.mpr ⟨(v - lo).toNat, List.mem_range.mpr (by omega), by omega⟩

theorem nodup_intRange (lo hi : ℤ) : (intRange lo hi).Nodup := by
  rw [intRange]
  exact List.Nodup.map (fun i j h => by omega) (List.nodup_range _)

/-- The `World.generateCellsAround` of `world.ts`: the coordinates pushed into
the cell buffer by the double loop `q ∈ [ctr.q - range, ctr.q + range]`,
`r ∈ [ctr.r - range, ctr.r + range]`, kept when their hex distance to the
center is at most `range`; in loop (buffer) order. -/
def generateCellsAround (ctr : ℤ × ℤ) (range : ℤ) : List (ℤ × ℤ) :=
  (intRange (ctr.1 - range) (ctr.1 + range)).flatMap fun q =>
    (intRange (ctr.2 - range) (ctr.2 + range)).filterMap fun r =>
      if hexDist (q - ctr.1) (r - ctr.2) ≤ range then some (q, r) else Option.none

theorem mem_generateCellsAround (ctr : ℤ × ℤ) (range : ℤ) (c : ℤ × ℤ) :
    c ∈ generateCellsAround ctr range ↔ hexDist (c.1 - ctr.1) (c.2 - ctr.2) ≤ range := by
  rw [generateCellsAround]
  constructor
  · intro hmem
    obtain ⟨q, hq, hin⟩ := List.mem_flatMap.mp hmem
    obtain ⟨r, hr, hif⟩ := List.mem_filterMap.mp hin
    split_ifs at hif with h
    cases hif
    exact h
  · intro h
    have hm := hexDist_mul_two (c.1 - ctr.1) (c.2 - ctr.2)
    have hb : ((ctr.1 - range ≤ c.1 ∧ c.1 ≤ ctr.1 + range) ∧
        ctr.2 - range ≤ c.2 ∧ c.2 ≤ ctr.2 + range) := by
      rcases abs_cases (c.1 - ctr.1) with ⟨h1, _⟩ | ⟨h1, _⟩ <;>
        rcases abs_cases (c.2 - ctr.2) with ⟨h2, _⟩ | ⟨h2, _⟩ <;>
          rcases abs_cases (c.1 - ctr.1 + (c.2 - ctr.2)) with ⟨h3, _⟩ | ⟨h3, _⟩ <;>
            rw [h1, h2, h3] at hm <;> omega
    refine List.mem_flatMap.mpr ⟨c.1, (mem_intRange _ _ _).mpr hb.1, ?_⟩
    refine List.mem_filterMap.mpr ⟨c.2, (mem_intRange _ _ _).mpr hb.2, ?_⟩
    rw [if_pos h]

theorem nodup_generateCellsAround (ctr : ℤ × ℤ) (range : ℤ) :
    (generateCellsAround ctr range).Nodup := by
  rw [generateCellsAround, List.nodup_flatMap]
  constructor
  · intro q hq
    apply List.Nodup.filterMap ?_ (nodup_intRange _ _)
    intro r r' p hp hp'
    split_ifs at hp hp' <;> cases hp <;> cases hp' <;> rfl
  · refine List.Pairwise.imp ?_ (nodup_intRange _ _)
    intro q q' hne p hp hp'
    obtain ⟨r, hr, hpr⟩ := List.mem_filterMap.mp hp
    obtain ⟨r', hr', hpr'⟩ := List.mem_filterMap.mp hp'
    split_ifs at hpr hpr' <;> cases hpr <;> cases hpr'
    exact hne rfl

theorem getCenter_lng_arg (sd : SharedCellData) (hs : sd.size ≠ 0) (q r : ℤ) :
    Q3.ofRat (2 / 3) * ((sd.getCenter q r).lng - sd.origin.lng) * Q3.ofRat sd.size⁻¹ =
      Q3.ofRat (q : ℚ) := by
  rw [Q3.ext_iff]
  constructor
  · simp [SharedCellData.getCenter]
    field_simp
    ring
  · simp [SharedCellData.getCenter]

theorem getCenter_lat_arg (sd : SharedCellData) (hs : sd.size ≠ 0) (q r : ℤ) :
    (Q3.ofRat (-(1 / 3)) * ((sd.getCenter q r).lng - sd.origin.lng) +
        sqrt3 * Q3.ofRat (1 / 3) * ((sd.getCenter q r).lat - sd.origin.lat)) *
      Q3.ofRat sd.size⁻¹ = Q3.ofRat (r : ℚ) := by
  rw [Q3.ext_iff]
  constructor
  · simp [SharedCellData.getCenter]
    field_simp
    ring
  · simp [SharedCellData.getCenter]

/-- The shared cell data used by `main.ts`: `new World(leaflet.latLng(0, 0), ...)`
with the default cell size `0.00005 = 1/20000`. -/
def sdGame : SharedCellData := ⟨⟨⟨0, 0⟩, ⟨0, 0⟩⟩, 1 / 20000⟩

/-- C9: for every integer axial coordinate `(q, r)`, the inverse projection
applied to that cell's center returns the same coordinate:
`latLngToHex (getCenter q r) = (q, r)`, exactly, under exact arithmetic —
the round-trip identity of `SharedCellData.getCenter` and `World.latLngToHex`. -/
theorem c9_latLngToHex_getCenter_roundtrip (sd : SharedCellData) (hs : sd.size ≠ 0)
    (q r : ℤ) :
    latLngToHex sd (sd.getCenter q r).lat (sd.getCenter q r).lng = (q, r) := by
  have hun : latLngToHex sd (sd.getCenter q r).lat (sd.getCenter q r).lng =
      (jsRound (Q3.ofRat (2 / 3) * ((sd.getCenter q r).lng - sd.origin.lng) *
          Q3.ofRat sd.size⁻¹),
       jsRound ((Q3.ofRat (-(1 / 3)) * ((sd.getCenter q r).lng - sd.origin.lng) +
           sqrt3 * Q3.ofRat (1 / 3) * ((sd.getCenter q r).lat - sd.origin.lat)) *
         Q3.ofRat sd.size⁻¹)) := rfl
  rw [hun, getCenter_lng_arg sd hs q r, getCenter_lat_arg sd hs q r, jsRound_int,
    jsRound_int]

/-- Witness for C9: the concrete configuration of `main.ts` (origin `(0,0)`,
size `1/20000`) round-trips the cell `(2, -3)`. -/
theorem c9_witness :
    sdGame.size ≠ 0 ∧
      latLngToHex sdGame (sdGame.getCenter 2 (-3)).lat (sdGame.getCenter 2 (-3)).lng =
        (2, -3) :=
  ⟨by norm_num [sdGame], c9_latLngToHex_getCenter_roundtrip sdGame (by norm_num [sdGame]) 2 (-3)⟩

/-- Movement directions of `positioning.ts` (eight compass directions plus
the no-op direction). -/
inductive Direction where
  | north | northeast | east | southeast | south | southwest | west | northwest | none
deriving DecidableEq

/-- The `directionDeltas` of `positioning.ts`: per-direction axial deltas
`(dq, dr)`. -/
def directionDeltas : Direction → ℤ × ℤ
  | Direction.north => (0, 1)
  | Direction.northeast => (1, 0)
  | Direction.east => (1, 0)
  | Direction.southeast => (1, -1)
  | Direction.south => (0, -1)
  | Direction.southwest => (-1, 0)
  | Direction.west => (-1, 0)
  | Direction.northwest => (-1, 1)
  | Direction.none => (0, 0)

/-- The `Positioning.move` of `positioning.ts`: look up the cell currently
occupied (`getCellAtLatLng`, i.e. `latLngToHex`), add the direction delta and
snap to the new cell's center. -/
def Positioning.move (sd : SharedCellData) (dir : Direction) (pos : GeoPoint) : GeoPoint :=
  sd.getCenter ((latLngToHex sd pos.lat pos.lng).1 + (directionDeltas dir).1)
    ((latLngToHex sd pos.lat pos.lng).2 + (directionDeltas dir).2)

/-- The `Positioning.updateFromGPS` of `positioning.ts`: snap the reported
position to the center of the cell containing it. -/
def Positioning.updateFromGPS (sd : SharedCellData) (lat lng : Q3) : GeoPoint :=
  sd.getCenter (latLngToHex sd lat lng).1 (latLngToHex sd lat lng).2

/-- The `Positioning.resetTo` of `positioning.ts`: `this.playerRadius.position =
position` — the given point is assigned verbatim, with no snapping. -/
def Positioning.resetTo (pos : GeoPoint) : GeoPoint := pos

/-- A concrete geographic point that is not the center of any hex cell of the
game's grid (its longitude offset is half a cell's `3/2·size` stride). -/
def offCenterPoint : GeoPoint := ⟨⟨0, 0⟩, ⟨1 / 40000, 0⟩⟩

/-- C8 counterexample: `resetTo` (used by the new-game reset in `main.ts`)
assigns the given position verbatim; applied to `offCenterPoint` it yields a
position that is not `center(q, r)` for any integers `(q, r)` — so not every
position-changing operation snaps to a cell center, refuting the claim. -/
theorem c8_counterexample :
    Positioning.resetTo offCenterPoint = offCenterPoint ∧
      ¬∃ q r : ℤ, sdGame.getCenter q r = offCenterPoint := by
  refine ⟨rfl, ?_⟩
  rintro ⟨q, r, h⟩
  have hlng : ((sdGame.getCenter q r).lng).a = (offCenterPoint.lng).a := by rw [h]
  have hq : (0 : ℚ) + 1 / 20000 * (3 / 2 * (q : ℚ)) = 1 / 40000 := by
    simpa [sdGame, SharedCellData.getCenter, offCenterPoint] using hlng
  have h3 : ((3 * q : ℤ) : ℚ) = ((1 : ℤ) : ℚ) := by push_cast; linarith
  have h4 : (3 * q : ℤ) = 1 := by exact_mod_cast h3
  omega

/-- C8 amended: a stepped move and a live/GPS position update always land
exactly on a cell center, but `resetTo` (the reset/new-game path) assigns the
given point verbatim without snapping, so after a reset the position need not
be a cell center. -/
theorem c8_move_and_gps_snap_reset_does_not (sd : SharedCellData) (dir : Direction)
    (pos : GeoPoint) (lat lng : Q3) :
    (∃ q r : ℤ, Positioning.move sd dir pos = sd.getCenter q r) ∧
      (∃ q r : ℤ, Positioning.updateFromGPS sd lat lng = sd.getCenter q r) ∧
      Positioning.resetTo pos = pos :=
  ⟨⟨_, _, rfl⟩, ⟨_, _, rfl⟩, rfl⟩

/-- The `CellInstance` of `world.ts`: a cell is determined by its axial
coordinate; center and id are derived on demand. -/
structure CellInstance where
  q : ℤ
  r : ℤ
deriving DecidableEq

/-- The `CellInstance.id` of `world.ts`: the string `"q,r"`. -/
def CellInstance.id (c : CellInstance) : String :=
  toString c.q ++ "," ++ toString c.r

/-- The `CellInstance.center` of `world.ts`: `shared.getCenter(q, r)`. -/
def CellInstance.center (sd : SharedCellData) (c : CellInstance) : GeoPoint :=
  sd.getCenter c.q c.r

/-- The `Coin` of `generation.ts`. -/
structure Coin where
  id : String
  value : ℚ
  position : GeoPoint
  cell : CellInstance
  history : List String
deriving DecidableEq

/-- The `CoinMemento` of `generation.ts`. -/
structure CoinMemento where
  id : String
  value : ℚ
  lat : Q3
  lng : Q3
  q : ℤ
  r : ℤ
  history : List String
deriving DecidableEq

/-- The `createCoinMemento` of `generation.ts`. -/
def createCoinMemento (coin : Coin) : CoinMemento :=
  { id := coin.id, value := coin.value, lat := coin.position.lat,
    lng := coin.position.lng, q := coin.cell.q, r := coin.cell.r,
    history := coin.history }

/-- The `World.restoreCoinFromMemento` of `world.ts`: rebuilds a live coin from a
memento, bound to the cell `(m.q, m.r)`. -/
def restoreCoinFromMemento (m : CoinMemento) : Coin :=
  { id := m.id, value := m.value, position := ⟨m.lat, m.lng⟩,
    cell := ⟨m.q, m.r⟩, history := m.history }

/-- The coordinate of the cell a coin currently occupies. -/
def coinCoord (coin : Coin) : ℤ × ℤ := (coin.cell.q, coin.cell.r)

/-- The hash key `[cell.q, cell.r, "value"].toString()` used by `spawnCoin`
in `generation.ts` (JS array `toString` joins with commas). -/
def spawnValueKey (c : CellInstance) : String :=
  toString c.q ++ "," ++ toString c.r ++ ",value"

/-- The `CoinGenerator.spawnCoin` of `generation.ts`.  The hash function `luck`
(`_luck.ts`, a pure seeded hash of its string argument, not part of the
snapshot) is passed as a parameter; the result is a pure function of the cell
coordinate, `luck` and the shared grid data.
`value = Math.floor(luck("q,r,value") * 10) + 1`. -/
def spawnCoin (luck : String → ℚ) (sd : SharedCellData) (c : CellInstance) : Coin :=
  { id := "coin-" ++ c.id,
    value := ((⌊luck (spawnValueKey c) * 10⌋ : ℤ) : ℚ) + 1,
    position := c.center sd,
    cell := c,
    history := ["Spawned in cell " ++ c.id] }

/-- The `CoinGenerator.generateCoinForCell` of `generation.ts`: spawn exactly when
`luck(cell.id) < spawnProbability`. -/
def generateCoinForCell (luck : String → ℚ) (spawnProbability : ℚ)
    (sd : SharedCellData) (c : CellInstance) : Option Coin :=
  if luck c.id < spawnProbability then some (spawnCoin luck sd c) else none

/-- The `CoinGenerator.generateCoinForCell` together with the generator's private
`coins` map (`this.coins.set(coin.id, coin)` in `spawnCoin`): the stateful
call returns the coin and the updated map. -/
def generateCoinForCellSt (luck : String → ℚ) (spawnProbability : ℚ)
    (sd : SharedCellData) (c : CellInstance) (coins : String → Option Coin) :
    Option Coin × (String → Option Coin) :=
  if luck c.id < spawnProbability then
    (some (spawnCoin luck sd c),
      Function.update coins (spawnCoin luck sd c).id (some (spawnCoin luck sd c)))
  else (none, coins)

/-- C1: the Content Generator's spawn decision for a cell is deterministic —
its returned value is independent of the generator's accumulated state (hence
of call order and of interleaved calls for other coordinates) and equals the
pure function of the coordinate and the fixed configuration; the spawn
decision is exactly `luck(cell.id) < spawnProbability`, and a spawned coin's
id, value, position and single-entry history are derived from the coordinate
alone. -/
theorem c1_generateCoinForCell_deterministic (luck : String → ℚ)
    (spawnProbability : ℚ) (sd : SharedCellData) (c : CellInstance)
    (s1 s2 : String → Option Coin) :
    (generateCoinForCellSt luck spawnProbability sd c s1).1 =
        (generateCoinForCellSt luck spawnProbability sd c s2).1 ∧
      (generateCoinForCellSt luck spawnProbability sd c s1).1 =
        generateCoinForCell luck spawnProbability sd c ∧
      ((generateCoinForCell luck spawnProbability sd c).isSome ↔
        luck c.id < spawnProbability) ∧
      ∀ coin, generateCoinForCell luck spawnProbability sd c = some coin →
        coin.id = "coin-" ++ c.id ∧
          coin.value = ((⌊luck (spawnValueKey c) * 10⌋ : ℤ) : ℚ) + 1 ∧
          coin.position = c.center sd ∧
          coin.history = ["Spawned in cell " ++ c.id] := by
  refine ⟨?_, ?_, ?_, ?_⟩
  · rw [generateCoinForCellSt, generateCoinForCellSt]
    split_ifs <;> rfl
  · rw [generateCoinForCellSt, generateCoinForCell]
    split_ifs <;> rfl
  · rw [generateCoinForCell]
    split_ifs with h <;> simp [h]
  · intro coin hcoin
    rw [generateCoinForCell] at hcoin
    split_ifs at hcoin
    cases hcoin
    exact ⟨rfl, rfl, rfl, rfl⟩

/-- A concrete deterministic hash for witnesses: every key hashes to `0`. -/
def luckZero : String → ℚ := fun _ => 0

/-- Witness for C1: with a concrete hash, spawn probability `1/10` and cell
`(0,0)`, two invocations from different generator states return the same
coin, whose id and history are derived from the coordinate. -/
theorem c1_witness :
    (generateCoinForCellSt luckZero (1 / 10) sdGame ⟨0, 0⟩ (fun _ => Option.none)).1 =
        (generateCoinForCellSt luckZero (1 / 10) sdGame ⟨0, 0⟩
          (fun _ => some (spawnCoin luckZero sdGame ⟨1, 1⟩))).1 ∧
      (spawnCoin luckZero sdGame ⟨0, 0⟩).id = "coin-" ++ (⟨0, 0⟩ : CellInstance).id ∧
      (spawnCoin luckZero sdGame ⟨0, 0⟩).history =
        ["Spawned in cell " ++ (⟨0, 0⟩ : CellInstance).id] :=
  have h := c1_generateCoinForCell_deterministic luckZero (1 / 10) sdGame ⟨0, 0⟩
    (fun _ => Option.none) (fun _ => some (spawnCoin luckZero sdGame ⟨1, 1⟩))
  ⟨h.1, (h.2.2.2 (spawnCoin luckZero sdGame ⟨0, 0⟩)
      (by rw [generateCoinForCell]; norm_num [luckZero])).1,
    (h.2.2.2 (spawnCoin luckZero sdGame ⟨0, 0⟩)
      (by rw [generateCoinForCell]; norm_num [luckZero])).2.2.2⟩

/-- The `craftCoin` of `generation.ts`: id `coin-<A>-<B>`, value `A + B`, history
`A.history ++ B.history ++ [craft entry]`; position and cell are taken from
the FIRST argument (`// For simplicity, use position of first coin`). -/
def craftCoin (coinA coinB : Coin) : Coin :=
  { id := "coin-" ++ coinA.id ++ "-" ++ coinB.id,
    value := coinA.value + coinB.value,
    position := coinA.position,
    cell := coinA.cell,
    history := coinA.history ++ coinB.history ++
      ["Crafted new coin with value " ++ toString (coinA.value + coinB.value)] }

/-- The `World` state of `world.ts` relevant to coins and the window:
the active coordinate set (the cell buffer's contents), the two coin maps
(`activeCoins` keyed by coin id, `coinsByCell` keyed by cell id) and the
remembered store (`persistedCoins`).  A remembered entry is either a memento
(`some (some m)`) or the explicit `null` of a removed cell (`some none`,
serialized as `memento: null` in `serialization.ts`); `none` means no entry. -/
structure WorldSt where
  active : List (ℤ × ℤ)
  activeCoins : String → Option Coin
  coinsByCell : ℤ × ℤ → Option Coin
  persisted : ℤ × ℤ → Option (Option CoinMemento)

/-- The empty world (fresh `World` instance). -/
def emptyWorld : WorldSt :=
  ⟨[], fun _ => Option.none, fun _ => Option.none, fun _ => Option.none⟩

/-- The `World.addCoin` of `world.ts` (map/marker bookkeeping elided):
`activeCoins.set(coin.id, coin); coinsByCell.set(coin.cell.id, coin)`. -/
def World.addCoin (coin : Coin) (st : WorldSt) : WorldSt :=
  { st with
    activeCoins := Function.update st.activeCoins coin.id (some coin),
    coinsByCell := Function.update st.coinsByCell (coinCoord coin) (some coin) }

/-- The `World.removeCoin` of `world.ts`: look up the entry by id; if present,
delete `coinsByCell[entry.coin.cell.id]` and `activeCoins[id]`. -/
def World.removeCoin (id : String) (st : WorldSt) : WorldSt :=
  match st.activeCoins id with
  | Option.none => st
  | some coin =>
    { st with
      activeCoins := Function.update st.activeCoins id Option.none,
      coinsByCell := Function.update st.coinsByCell (coinCoord coin) Option.none }

/-- The `World.getPersistedCoinForCell` of `world.ts` under the nullable store:
an absent entry and a remembered `null` are both falsy to the caller. -/
def World.getPersistedCoinForCell (st : WorldSt) (c : ℤ × ℤ) : Option CoinMemento :=
  (st.persisted c).bind (fun m => m)

/-- The `World.removePersisted` of `world.ts`: delete the remembered entry. -/
def World.removePersisted (c : ℤ × ℤ) (st : WorldSt) : WorldSt :=
  { st with persisted := Function.update st.persisted c Option.none }

/-- Loop body of `pruneCoins` in `World.updateCellsAround` (`world.ts`): for a
cell leaving the window, if it holds a coin whose history has more than one
entry, snapshot it as a memento keyed by the cell id; then remove the coin. -/
def World.pruneCell (c : ℤ × ℤ) (st : WorldSt) : WorldSt :=
  match st.coinsByCell c with
  | Option.none => st
  | some coin =>
    World.removeCoin coin.id
      (if 1 < coin.history.length then
        { st with
          persisted := Function.update st.persisted c (some (some (createCoinMemento coin))) }
      else st)

/-- Loop body of `generateCoins` in `World.updateCellsAround` (`world.ts`):
for a cell entering the window, restore a remembered memento if present
(consuming it), else invoke the Content Generator; place the coin if any. -/
def World.genCell (luck : String → ℚ) (spawnProbability : ℚ) (sd : SharedCellData)
    (c : ℤ × ℤ) (st : WorldSt) : WorldSt :=
  match World.getPersistedCoinForCell st c with
  | some m => World.addCoin (restoreCoinFromMemento m) (World.removePersisted c st)
  | Option.none =>
    match generateCoinForCell luck spawnProbability sd ⟨c.1, c.2⟩ with
    | some coin => World.addCoin coin st
    | Option.none => st

/-- The `World.updateCellsAround` of `world.ts`: collect the previously active
ids, recompute the window (`generateCellsAround` refills the cell buffer),
prune coins of evicted cells, then generate/restore coins of entering cells. -/
def World.updateCellsAround (luck : String → ℚ) (spawnProbability : ℚ)
    (sd : SharedCellData) (ctr : ℤ × ℤ) (range : ℤ) (st : WorldSt) : WorldSt :=
  let existing := st.active
  let added := generateCellsAround ctr range
  let evicted := existing.filter (fun c => decide (c ∉ added))
  let entering := added.filter (fun c => decide (c ∉ existing))
  let st1 : WorldSt := { st with active := added }
  let st2 := evicted.foldl (fun s c => World.pruneCell c s) st1
  entering.foldl (fun s c => World.genCell luck spawnProbability sd c s) st2

/-- Modelled from the spec: `World.persistRemovedCell` — called by the
`coin-clicked` handler in `main.ts` ("remove from map and mark cell empty")
but absent from the snapshot's `world.ts`.  Per the spec (§4.3, §8 and the
`PersistedCoinEntry` contract of §6), the cell a coin was picked up from or
consumed in is remembered as explicitly empty: an entry with `memento: null`
keyed by the cell id. -/
def World.persistRemovedCell (c : ℤ × ℤ) (st : WorldSt) : WorldSt :=
  { st with persisted := Function.update st.persisted c (some Option.none) }

/-- Modelled from the spec: `World.persistCoinSnapshot` — called by the
placement paths in `main.ts` ("Persist placed coin state immediately") but
absent from the snapshot's `world.ts`.  Per the spec (§4.3/§6), the placed
coin's state is remembered as a memento keyed by its cell id. -/
def World.persistCoinSnapshot (coin : Coin) (st : WorldSt) : WorldSt :=
  { st with
    persisted :=
      Function.update st.persisted (coinCoord coin) (some (some (createCoinMemento coin))) }

/-- Game-level state: the world plus the single inventory slot
(`Inventory` of `player.ts`). -/
structure GameSt where
  world : WorldSt
  inventory : Option Coin

/-- The non-craft path of the `coin-clicked` handler in `main.ts`: remove the
clicked coin from the world, mark its cell empty, append the pick-up history
entry, swap it into the inventory; a previously held coin is placed into the
clicked cell (position/cell updated, "Placed" entry appended), added back to
the world and snapshotted. -/
def pickupOrSwap (coin : Coin) (g : GameSt) : GameSt :=
  let w1 := World.persistRemovedCell (coinCoord coin) (World.removeCoin coin.id g.world)
  let picked : Coin :=
    { coin with history := coin.history ++ ["Picked up from cell " ++ coin.cell.id] }
  match g.inventory with
  | Option.none => { world := w1, inventory := some picked }
  | some old =>
    let placedOld : Coin :=
      { old with position := coin.position, cell := coin.cell,
                 history := old.history ++ ["Placed in cell " ++ coin.cell.id] }
    { world := World.persistCoinSnapshot placedOld (World.addCoin placedOld w1),
      inventory := some picked }

/-- The `coin-clicked` handler of `main.ts`.  `inReach` is the outcome of the
reach check `coin.position.distanceTo(positioning.position) > positioning.reach`
(out-of-reach clicks are ignored).  With a held coin of equal value the craft
branch runs: the inventory receives `craftCoin(held, clicked)`, the clicked
coin is removed from the world and its cell marked empty. -/
def coinClicked (inReach : Bool) (coin : Coin) (g : GameSt) : GameSt :=
  if inReach then
    match g.inventory with
    | some held =>
      if held.value = coin.value then
        { world :=
            World.persistRemovedCell (coinCoord coin) (World.removeCoin coin.id g.world),
          inventory := some (craftCoin held coin) }
      else pickupOrSwap coin g
    | Option.none => pickupOrSwap coin g
  else g

/-- The map-click placement branch of `main.ts` (reach-checked against the
clicked cell's center): if the clicked cell is empty and a coin is held, the
held coin is placed there (position/cell updated, "Placed" entry appended),
removed from the inventory, added to the world and snapshotted.  A click on a
cell holding a coin dispatches `coin-clicked` instead (modelled by
`coinClicked`). -/
def mapClickPlace (cellReach : Bool) (sd : SharedCellData) (cell : CellInstance)
    (g : GameSt) : GameSt :=
  if cellReach then
    match g.world.coinsByCell (cell.q, cell.r) with
    | some _ => g
    | Option.none =>
      match g.inventory with
      | Option.none => g
      | some held =>
        let placed : Coin :=
          { held with position := cell.center sd, cell := cell,
                      history := held.history ++ ["Placed in cell " ++ cell.id] }
        { world := World.persistCoinSnapshot placed (World.addCoin placed g.world),
          inventory := Option.none }
  else g

/-- A spawned coin of value 4 in cell `(0,0)` (concrete test data). -/
def coinA4 : Coin :=
  ⟨"coin-0,0", 4, sdGame.getCenter 0 0, ⟨0, 0⟩, ["Spawned in cell 0,0"]⟩

/-- A spawned coin of value 4 in cell `(1,0)` (concrete test data). -/
def coinB4 : Coin :=
  ⟨"coin-1,0", 4, sdGame.getCenter 1 0, ⟨1, 0⟩, ["Spawned in cell 1,0"]⟩

/-- A spawned coin of value 5 in cell `(1,1)` (concrete test data). -/
def coinB5 : Coin :=
  ⟨"coin-1,1", 5, sdGame.getCenter 1 1, ⟨1, 1⟩, ["Spawned in cell 1,1"]⟩

/-- C3: when the player clicks a reachable coin while holding a coin of equal
value, the craft branch runs and the inventory receives a coin whose value is
`held.value + target.value` and whose history is exactly the held coin's
entries, then the target's entries, then one final craft entry, in that
order. -/
theorem c3_craft_value_and_history (g : GameSt) (held coin : Coin)
    (hinv : g.inventory = some held) (hval : held.value = coin.value) :
    (coinClicked true coin g).inventory = some (craftCoin held coin) ∧
      (craftCoin held coin).value = held.value + coin.value ∧
      (craftCoin held coin).history =
        held.history ++ coin.history ++
          ["Crafted new coin with value " ++ toString (held.value + coin.value)] := by
  refine ⟨?_, rfl, rfl⟩
  simp [coinClicked, hinv, hval]

/-- Witness for C3: crafting two concrete value-4 coins. -/
theorem c3_witness :
    (coinClicked true coinB4 ⟨emptyWorld, some coinA4⟩).inventory =
        some (craftCoin coinA4 coinB4) ∧
      (craftCoin coinA4 coinB4).value = coinA4.value + coinB4.value ∧
      (craftCoin coinA4 coinB4).history =
        coinA4.history ++ coinB4.history ++
          ["Crafted new coin with value " ++ toString (coinA4.value + coinB4.value)] :=
  c3_craft_value_and_history ⟨emptyWorld, some coinA4⟩ coinA4 coinB4 rfl rfl

/-- C10: `craftCoin` itself imposes no equal-value precondition — for ANY two
coins, equal-valued or not, it returns the sum value and the concatenated
history plus one craft entry; the equal-value restriction lives solely in the
caller's guard (`inventory.coin!.value === coin.value` in `main.ts`), whose
failure routes to the swap path instead. -/
theorem c10_craftCoin_no_precondition (a b : Coin) (g : GameSt) (held coin : Coin) :
    (craftCoin a b).value = a.value + b.value ∧
      (craftCoin a b).history = a.history ++ b.history ++
        ["Crafted new coin with value " ++ toString (a.value + b.value)] ∧
      (g.inventory = some held → held.value ≠ coin.value →
        coinClicked true coin g = pickupOrSwap coin g) := by
  refine ⟨rfl, rfl, ?_⟩
  intro h1 h2
  simp [coinClicked, h1, h2]

/-- Witness for C10: crafting unequal values 4 and 5 still sums; the handler
guard with unequal values takes the swap path. -/
theorem c10_witness :
    (craftCoin coinA4 coinB5).value = coinA4.value + coinB5.value ∧
      coinClicked true coinB5 ⟨emptyWorld, some coinA4⟩ =
        pickupOrSwap coinB5 ⟨emptyWorld, some coinA4⟩ :=
  have h := c10_craftCoin_no_precondition coinA4 coinB5 ⟨emptyWorld, some coinA4⟩
    coinA4 coinB5
  ⟨h.1, h.2.2 rfl (by norm_num [coinA4, coinB5])⟩

/-- C4 counterexample: `craftCoin` takes position and cell from its FIRST
argument, and the handler passes the HELD coin first (`craftCoin(oldCoin!,
coin)` in `main.ts`); with held coin `coinA4` (cell `(0,0)`) and clicked
target `coinB4` (cell `(1,0)`), the crafted coin does NOT carry the target's
position and cell — refuting the claim as stated. -/
theorem c4_counterexample :
    ¬((craftCoin coinA4 coinB4).position = coinB4.position ∧
      (craftCoin coinA4 coinB4).cell = coinB4.cell) := by
  intro h
  have h2 := h.2
  simp [craftCoin, coinA4, coinB4] at h2

/-- C4 amended: the crafted coin carries the HELD coin's (first argument's)
position and cell; the target coin is removed from the world in the craft
step (gone from both coin maps) and its cell is marked explicitly empty, so
no memento of its old value remains retrievable. -/
theorem c4_craft_position_from_held_target_consumed (a b : Coin) (g : GameSt)
    (held coin : Coin) (hinv : g.inventory = some held)
    (hval : held.value = coin.value)
    (hact : g.world.activeCoins coin.id = some coin) :
    (craftCoin a b).position = a.position ∧ (craftCoin a b).cell = a.cell ∧
      (coinClicked true coin g).world.activeCoins coin.id = Option.none ∧
      (coinClicked true coin g).world.coinsByCell (coinCoord coin) = Option.none ∧
      World.getPersistedCoinForCell (coinClicked true coin g).world (coinCoord coin) =
        Option.none := by
  refine ⟨rfl, rfl, ?_, ?_, ?_⟩ <;>
    simp [coinClicked, hinv, hval, World.persistRemovedCell, World.removeCoin, hact,
      World.getPersistedCoinForCell]

/-- Witness for C4 (amended): concrete craft of two value-4 coins with the
target live in the world. -/
theorem c4_witness :
    (craftCoin coinA4 coinB4).cell = coinA4.cell ∧
      (coinClicked true coinB4
          ⟨World.addCoin coinB4 emptyWorld, some coinA4⟩).world.activeCoins coinB4.id =
        Option.none :=
  have h := c4_craft_position_from_held_target_consumed coinA4 coinB4
    ⟨World.addCoin coinB4 emptyWorld, some coinA4⟩ coinA4 coinB4 rfl rfl
    (by simp [World.addCoin])
  ⟨h.2.1, h.2.2.1⟩

theorem World.removeCoin_active (id : String) (st : WorldSt) :
    (World.removeCoin id st).active = st.active := by
  unfold World.removeCoin
  cases hx : st.activeCoins id <;> rfl

theorem World.pruneCell_active (c : ℤ × ℤ) (st : WorldSt) :
    (World.pruneCell c st).active = st.active := by
  unfold World.pruneCell
  cases hx : st.coinsByCell c
  · rfl
  · rw [World.removeCoin_active]
    split_ifs <;> rfl

theorem World.genCell_active (luck : String → ℚ) (p : ℚ) (sd : SharedCellData)
    (c : ℤ × ℤ) (st : WorldSt) :
    (World.genCell luck p sd c st).active = st.active := by
  unfold World.genCell
  cases hx : World.getPersistedCoinForCell st c
  · cases hy : generateCoinForCell luck p sd ⟨c.1, c.2⟩ <;> rfl
  · rfl

theorem foldl_pruneCell_active (l : List (ℤ × ℤ)) (st : WorldSt) :
    (l.foldl (fun s c => World.pruneCell c s) st).active = st.active := by
  induction l generalizing st with
  | nil => rfl
  | cons x xs ih => rw [List.foldl_cons, ih, World.pruneCell_active]

theorem foldl_genCell_active (luck : String → ℚ) (p : ℚ) (sd : SharedCellData)
    (l : List (ℤ × ℤ)) (st : WorldSt) :
    (l.foldl (fun s c => World.genCell luck p sd c s) st).active = st.active := by
  induction l generalizing st with
  | nil => rfl
  | cons x xs ih => rw [List.foldl_cons, ih, World.genCell_active]

/-- C2: after any window update `updateCellsAround(centerCoord, range)`, the
active cell set is exactly the set of coordinates whose hex distance
`(|Δq| + |Δr| + |Δq+Δr|)/2` to the player's coordinate is at most `range` —
every such coordinate is active and no other is. -/
theorem c2_window_coverage (luck : String → ℚ) (p : ℚ) (sd : SharedCellData)
    (ctr : ℤ × ℤ) (range : ℤ) (st : WorldSt) :
    (World.updateCellsAround luck p sd ctr range st).active =
        generateCellsAround ctr range ∧
      ∀ c, c ∈ generateCellsAround ctr range ↔
        hexDist (c.1 - ctr.1) (c.2 - ctr.2) ≤ range := by
  refine ⟨?_, mem_generateCellsAround ctr range⟩
  show ((((generateCellsAround ctr range).filter
      (fun c => decide (c ∉ st.active))).foldl
        (fun s c => World.genCell luck p sd c s)
        (((st.active.filter (fun c => decide (c ∉ generateCellsAround ctr range))).foldl
          (fun s c => World.pruneCell c s)
          { st with active := generateCellsAround ctr range }))).active) =
    generateCellsAround ctr range
  rw [foldl_genCell_active, foldl_pruneCell_active]

theorem craftCoin_id_ne_fst (a b : Coin) : (craftCoin a b).id ≠ a.id := by
  intro h
  have hlen := congrArg String.length h
  have h5 : "coin-".length = 5 := rfl
  have h1 : "-".length = 1 := rfl
  simp only [craftCoin, String.length_append, h5, h1] at hlen
  omega

theorem craftCoin_id_ne_snd (a b : Coin) : (craftCoin a b).id ≠ b.id := by
  intro h
  have hlen := congrArg String.length h
  have h5 : "coin-".length = 5 := rfl
  have h1 : "-".length = 1 := rfl
  simp only [craftCoin, String.length_append, h5, h1] at hlen
  omega

/-- Inventory exclusivity: the held coin's id is never simultaneously an
active world coin id. -/
def InventoryExclusive (g : GameSt) : Prop :=
  ∀ c, g.inventory = some c → g.world.activeCoins c.id = Option.none

/-- C6: within each handler step, token moves are completed atomically and
inventory/world id-exclusivity is preserved: a pick-up removes the clicked
coin's id from the world in the same step that puts it in the inventory
(placing any previously held coin back into the world under its own distinct
id); a placement removes the held coin from the inventory in the same step
that adds it to the world; a craft puts its result (whose id differs from
both inputs' ids) only into the inventory while the consumed target leaves
the world. -/
theorem c6_inventory_exclusivity (g : GameSt) (coin : Coin) (sd : SharedCellData)
    (cell : CellInstance) (hE : InventoryExclusive g)
    (hact : g.world.activeCoins coin.id = some coin) :
    (∀ a b : Coin, (craftCoin a b).id ≠ a.id ∧ (craftCoin a b).id ≠ b.id) ∧
      (g.inventory = Option.none →
        (coinClicked true coin g).world.activeCoins coin.id = Option.none ∧
          (∃ picked, (coinClicked true coin g).inventory = some picked ∧
            picked.id = coin.id) ∧
          InventoryExclusive (coinClicked true coin g)) ∧
      (∀ old, g.inventory = some old → old.value ≠ coin.value →
        (coinClicked true coin g).world.activeCoins coin.id = Option.none ∧
          (∃ placed, (coinClicked true coin g).world.activeCoins old.id = some placed ∧
            placed.id = old.id) ∧
          (∃ picked, (coinClicked true coin g).inventory = some picked ∧
            picked.id = coin.id) ∧
          InventoryExclusive (coinClicked true coin g)) ∧
      (∀ held, g.inventory = some held → held.value = coin.value →
        g.world.activeCoins (craftCoin held coin).id = Option.none →
        (coinClicked true coin g).inventory = some (craftCoin held coin) ∧
          (coinClicked true coin g).world.activeCoins coin.id = Option.none ∧
          InventoryExclusive (coinClicked true coin g)) ∧
      (∀ held, g.inventory = some held →
        g.world.coinsByCell (cell.q, cell.r) = Option.none →
        (mapClickPlace true sd cell g).inventory = Option.none ∧
          (∃ placed, (mapClickPlace true sd cell g).world.activeCoins held.id =
              some placed ∧ placed.id = held.id) ∧
          InventoryExclusive (mapClickPlace true sd cell g)) := by
  refine ⟨fun a b => ⟨craftCoin_id_ne_fst a b, craftCoin_id_ne_snd a b⟩, ?_, ?_, ?_, ?_⟩
  · intro hinv
    refine ⟨?_, ⟨{ coin with history := coin.history ++ ["Picked up from cell " ++ coin.cell.id] }, ?_, rfl⟩, ?_⟩
    · simp [coinClicked, pickupOrSwap, hinv, World.persistRemovedCell, World.removeCoin,
        hact]
    · simp [coinClicked, pickupOrSwap, hinv]
    · intro c hc
      simp [coinClicked, pickupOrSwap, hinv] at hc
      subst hc
      simp [coinClicked, pickupOrSwap, hinv, World.persistRemovedCell, World.removeCoin,
        hact]
  · intro old hinv hne
    have hid : old.id ≠ coin.id := by
      intro h
      have h1 := hE old hinv
      rw [h, hact] at h1
      cases h1
    refine ⟨?_, ⟨{ old with position := coin.position, cell := coin.cell, history := old.history ++ ["Placed in cell " ++ coin.cell.id] }, ?_, rfl⟩, ⟨{ coin with history := coin.history ++ ["Picked up from cell " ++ coin.cell.id] }, ?_, rfl⟩, ?_⟩
    · simp [coinClicked, pickupOrSwap, hinv, hne, World.persistCoinSnapshot,
        World.addCoin, World.persistRemovedCell, World.removeCoin, hact,
        Function.update_noteq (Ne.symm hid), Function.update_noteq hid]
    · simp [coinClicked, pickupOrSwap, hinv, hne, World.persistCoinSnapshot,
        World.addCoin, World.persistRemovedCell, World.removeCoin, hact]
    · simp [coinClicked, pickupOrSwap, hinv, hne]
    · intro c hc
      simp [coinClicked, pickupOrSwap, hinv, hne] at hc
      subst hc
      simp [coinClicked, pickupOrSwap, hinv, hne, World.persistCoinSnapshot,
        World.addCoin, World.persistRemovedCell, World.removeCoin, hact,
        Function.update_noteq (Ne.symm hid), Function.update_noteq hid]
  · intro held hinv hval hfresh
    refine ⟨?_, ?_, ?_⟩
    · simp [coinClicked, hinv, hval]
    · simp [coinClicked, hinv, hval, World.persistRemovedCell, World.removeCoin, hact]
    · intro c hc
      simp [coinClicked, hinv, hval] at hc
      subst hc
      have hne1 : (craftCoin held coin).id ≠ coin.id := craftCoin_id_ne_snd held coin
      simp [coinClicked, hinv, hval, World.persistRemovedCell, World.removeCoin, hact,
        Function.update_noteq hne1, hfresh]
  · intro held hinv hempty
    refine ⟨?_, ⟨{ held with position := cell.center sd, cell := cell, history := held.history ++ ["Placed in cell " ++ cell.id] }, ?_, rfl⟩, ?_⟩
    · simp [mapClickPlace, hinv, hempty]
    · simp [mapClickPlace, hinv, hempty, World.persistCoinSnapshot, World.addCoin]
    · intro c hc
      simp [mapClickPlace, hinv, hempty] at hc

/-- Witness for C6: a concrete pick-up of a live coin with an empty inventory
removes the coin's id from the world in the same step and preserves
inventory/world exclusivity. -/
theorem c6_witness :
    (coinClicked true coinB4
        ⟨World.addCoin coinB4 emptyWorld, Option.none⟩).world.activeCoins coinB4.id =
      Option.none ∧
    InventoryExclusive
      (coinClicked true coinB4 ⟨World.addCoin coinB4 emptyWorld, Option.none⟩) :=
  have h := c6_inventory_exclusivity ⟨World.addCoin coinB4 emptyWorld, Option.none⟩
    coinB4 sdGame ⟨2, 2⟩ (fun c hc => nomatch hc) (by simp [World.addCoin])
  ⟨(h.2.1 rfl).1, (h.2.1 rfl).2.2⟩

/-- Coherence of the two coin maps of `world.ts` (`activeCoins` keyed by id,
`coinsByCell` keyed by cell): they pair up the same coins. -/
def WFpair (st : WorldSt) : Prop :=
  (∀ c coin, st.coinsByCell c = some coin →
    coinCoord coin = c ∧ st.activeCoins coin.id = some coin) ∧
  (∀ i coin, st.activeCoins i = some coin →
    coin.id = i ∧ st.coinsByCell (coinCoord coin) = some coin)

/-- The spec's memento invariant: a remembered memento's `(q, r)` matches the
cell id it is keyed under. -/
def StoreCoherent (st : WorldSt) : Prop :=
  ∀ c m, st.persisted c = some (some m) → (m.q, m.r) = c

theorem World.removeCoin_of_mem (id : String) (st : WorldSt) (coin : Coin)
    (h : st.activeCoins id = some coin) :
    World.removeCoin id st =
      { st with
        activeCoins := Function.update st.activeCoins id Option.none,
        coinsByCell := Function.update st.coinsByCell (coinCoord coin) Option.none } := by
  unfold World.removeCoin
  rw [h]

theorem World.pruneCell_of_none (c : ℤ × ℤ) (st : WorldSt)
    (h : st.coinsByCell c = Option.none) : World.pruneCell c st = st := by
  unfold World.pruneCell
  rw [h]

theorem World.pruneCell_of_some (c : ℤ × ℤ) (st : WorldSt) (coin : Coin)
    (h : st.coinsByCell c = some coin) :
    World.pruneCell c st =
      World.removeCoin coin.id
        (if 1 < coin.history.length then
          { st with
            persisted := Function.update st.persisted c (some (some (createCoinMemento coin))) }
        else st) := by
  unfold World.pruneCell
  rw [h]

theorem pruneCell_coinsByCell (c : ℤ × ℤ) (st : WorldSt) (hwf : WFpair st) (x : ℤ × ℤ) :
    (World.pruneCell c st).coinsByCell x =
      if x = c then Option.none else st.coinsByCell x := by
  rcases hx : st.coinsByCell c with - | coin
  · rw [World.pruneCell_of_none c st hx]
    rcases eq_or_ne x c with rfl | hne
    · simp [hx]
    · simp [hne]
  · obtain ⟨hco, hac⟩ := hwf.1 c coin hx
    rw [World.pruneCell_of_some c st coin hx]
    by_cases hl : 1 < coin.history.length
    · rw [if_pos hl, World.removeCoin_of_mem coin.id { st with persisted := Function.update st.persisted c (some (some (createCoinMemento coin))) } coin hac]
      simp [hco, Function.update_apply]
    · rw [if_neg hl, World.removeCoin_of_mem coin.id st coin hac]
      simp [hco, Function.update_apply]

theorem World.removeCoin_persisted (id : String) (st : WorldSt) :
    (World.removeCoin id st).persisted = st.persisted := by
  unfold World.removeCoin
  cases hx : st.activeCoins id <;> rfl

theorem pruneCell_persisted_other (c : ℤ × ℤ) (st : WorldSt) (x : ℤ × ℤ) (hne : x ≠ c) :
    (World.pruneCell c st).persisted x = st.persisted x := by
  rcases hx : st.coinsByCell c with - | coin
  · rw [World.pruneCell_of_none c st hx]
  · rw [World.pruneCell_of_some c st coin hx, World.removeCoin_persisted]
    split_ifs with hl
    · simp [Function.update_apply, hne]
    · rfl

theorem pruneCell_persisted_self_interacted (c : ℤ × ℤ) (st : WorldSt) (coin : Coin)
    (hx : st.coinsByCell c = some coin) (hl : 1 < coin.history.length) :
    (World.pruneCell c st).persisted c = some (some (createCoinMemento coin)) := by
  rw [World.pruneCell_of_some c st coin hx, World.removeCoin_persisted, if_pos hl]
  simp

theorem pruneCell_persisted_self_fresh (c : ℤ × ℤ) (st : WorldSt) (coin : Coin)
    (hx : st.coinsByCell c = some coin) (hl : ¬1 < coin.history.length) :
    (World.pruneCell c st).persisted c = st.persisted c := by
  rw [World.pruneCell_of_some c st coin hx, World.removeCoin_persisted, if_neg hl]

theorem pruneCell_WFpair (c : ℤ × ℤ) (st : WorldSt) (hwf : WFpair st) :
    WFpair (World.pruneCell c st) := by
  rcases hx : st.coinsByCell c with - | coin
  · rw [World.pruneCell_of_none c st hx]
    exact hwf
  · obtain ⟨hco, hac⟩ := hwf.1 c coin hx
    have key : ∀ stP : WorldSt, stP.activeCoins = st.activeCoins →
        stP.coinsByCell = st.coinsByCell →
        WFpair { stP with
          activeCoins := Function.update stP.activeCoins coin.id Option.none,
          coinsByCell := Function.update stP.coinsByCell (coinCoord coin) Option.none } := by
      intro stP hA hB
      constructor
      · intro x co h2
        rw [hB] at h2
        simp only [Function.update_apply] at h2
        split_ifs at h2 with hxc
        obtain ⟨hcoX, hacX⟩ := hwf.1 x co h2
        have hne : co.id ≠ coin.id := by
          intro hid
          rw [hid, hac] at hacX
          cases hacX
          exact hxc hcoX.symm
        refine ⟨hcoX, ?_⟩
        rw [hA]
        simp only [Function.update_apply, if_neg hne]
        exact hacX
      · intro i co h2
        rw [hA] at h2
        simp only [Function.update_apply] at h2
        split_ifs at h2 with hic
        obtain ⟨hidX, hcellX⟩ := hwf.2 i co h2
        have hne : coinCoord co ≠ coinCoord coin := by
          intro hcc
          rw [hco] at hcc
          rw [hcc, hx] at hcellX
          cases hcellX
          exact hic (by rw [hidX])
        refine ⟨hidX, ?_⟩
        rw [hB]
        simp only [Function.update_apply, if_neg hne]
        exact hcellX
    rw [World.pruneCell_of_some c st coin hx]
    by_cases hl : 1 < coin.history.length
    · rw [if_pos hl, World.removeCoin_of_mem coin.id { st with persisted := Function.update st.persisted c (some (some (createCoinMemento coin))) } coin hac]
      exact key _ rfl rfl
    · rw [if_neg hl, World.removeCoin_of_mem coin.id st coin hac]
      exact key _ rfl rfl

theorem pruneCell_StoreCoherent (c : ℤ × ℤ) (st : WorldSt) (hwf : WFpair st)
    (hsc : StoreCoherent st) : StoreCoherent (World.pruneCell c st) := by
  intro c' m hm
  rcases eq_or_ne c' c with rfl | hne
  · rcases hx : st.coinsByCell c' with - | coin
    · rw [World.pruneCell_of_none c' st hx] at hm
      exact hsc c' m hm
    · by_cases hl : 1 < coin.history.length
      · rw [pruneCell_persisted_self_interacted c' st coin hx hl] at hm
        cases hm
        obtain ⟨hco, -⟩ := hwf.1 c' coin hx
        exact hco
      · rw [pruneCell_persisted_self_fresh c' st coin hx hl] at hm
        exact hsc c' m hm
  · rw [pruneCell_persisted_other c st c' hne] at hm
    exact hsc c' m hm

theorem World.genCell_of_memento (luck : String → ℚ) (p : ℚ) (sd : SharedCellData)
    (c : ℤ × ℤ) (st : WorldSt) (m : CoinMemento) (h : st.persisted c = some (some m)) :
    World.genCell luck p sd c st =
      World.addCoin (restoreCoinFromMemento m) (World.removePersisted c st) := by
  unfold World.genCell World.getPersistedCoinForCell
  rw [h]
  rfl

theorem World.genCell_of_no_memento_some (luck : String → ℚ) (p : ℚ)
    (sd : SharedCellData) (c : ℤ × ℤ) (st : WorldSt) (coin : Coin)
    (h : (st.persisted c).bind (fun m => m) = Option.none)
    (hg : generateCoinForCell luck p sd ⟨c.1, c.2⟩ = some coin) :
    World.genCell luck p sd c st = World.addCoin coin st := by
  unfold World.genCell World.getPersistedCoinForCell
  rw [h, hg]

theorem World.genCell_of_no_memento_none (luck : String → ℚ) (p : ℚ)
    (sd : SharedCellData) (c : ℤ × ℤ) (st : WorldSt)
    (h : (st.persisted c).bind (fun m => m) = Option.none)
    (hg : generateCoinForCell luck p sd ⟨c.1, c.2⟩ = Option.none) :
    World.genCell luck p sd c st = st := by
  unfold World.genCell World.getPersistedCoinForCell
  rw [h, hg]

theorem generateCoinForCell_coord (luck : String → ℚ) (p : ℚ) (sd : SharedCellData)
    (c : CellInstance) (coin : Coin) (h : generateCoinForCell luck p sd c = some coin) :
    coin.cell = c := by
  unfold generateCoinForCell at h
  split_ifs at h
  cases h
  rfl

theorem genCell_coinsByCell_other (luck : String → ℚ) (p : ℚ) (sd : SharedCellData)
    (c : ℤ × ℤ) (st : WorldSt) (hsc : StoreCoherent st) (x : ℤ × ℤ) (hne : x ≠ c) :
    (World.genCell luck p sd c st).coinsByCell x = st.coinsByCell x := by
  rcases hp : st.persisted c with - | mm
  · have hb : (st.persisted c).bind (fun m => m) = Option.none := by rw [hp]; rfl
    rcases hg : generateCoinForCell luck p sd ⟨c.1, c.2⟩ with - | coin
    · rw [World.genCell_of_no_memento_none luck p sd c st hb hg]
    · rw [World.genCell_of_no_memento_some luck p sd c st coin hb hg]
      have hcc : coinCoord coin = c := by
        have := generateCoinForCell_coord luck p sd ⟨c.1, c.2⟩ coin hg
        rw [coinCoord, this]
      unfold World.addCoin
      simp [Function.update_apply, hcc, hne]
  · rcases mm with - | m
    · have hb : (st.persisted c).bind (fun m => m) = Option.none := by rw [hp]; rfl
      rcases hg : generateCoinForCell luck p sd ⟨c.1, c.2⟩ with - | coin
      · rw [World.genCell_of_no_memento_none luck p sd c st hb hg]
      · rw [World.genCell_of_no_memento_some luck p sd c st coin hb hg]
        have hcc : coinCoord coin = c := by
          have := generateCoinForCell_coord luck p sd ⟨c.1, c.2⟩ coin hg
          rw [coinCoord, this]
        unfold World.addCoin
        simp [Function.update_apply, hcc, hne]
    · rw [World.genCell_of_memento luck p sd c st m hp]
      have hcc : coinCoord (restoreCoinFromMemento m) = c := hsc c m hp
      unfold World.addCoin World.removePersisted
      simp [Function.update_apply, hcc, hne]

theorem genCell_persisted_other (luck : String → ℚ) (p : ℚ) (sd : SharedCellData)
    (c : ℤ × ℤ) (st : WorldSt) (x : ℤ × ℤ) (hne : x ≠ c) :
    (World.genCell luck p sd c st).persisted x = st.persisted x := by
  rcases hp : st.persisted c with - | mm
  · have hb : (st.persisted c).bind (fun m => m) = Option.none := by rw [hp]; rfl
    rcases hg : generateCoinForCell luck p sd ⟨c.1, c.2⟩ with - | coin
    · rw [World.genCell_of_no_memento_none luck p sd c st hb hg]
    · rw [World.genCell_of_no_memento_some luck p sd c st coin hb hg]
      rfl
  · rcases mm with - | m
    · have hb : (st.persisted c).bind (fun m => m) = Option.none := by rw [hp]; rfl
      rcases hg : generateCoinForCell luck p sd ⟨c.1, c.2⟩ with - | coin
      · rw [World.genCell_of_no_memento_none luck p sd c st hb hg]
      · rw [World.genCell_of_no_memento_some luck p sd c st coin hb hg]
        rfl
    · rw [World.genCell_of_memento luck p sd c st m hp]
      unfold World.addCoin World.removePersisted
      simp [Function.update_apply, hne]

theorem genCell_restore_self (luck : String → ℚ) (p : ℚ) (sd : SharedCellData)
    (c : ℤ × ℤ) (st : WorldSt) (m : CoinMemento) (hsc : StoreCoherent st)
    (hp : st.persisted c = some (some m)) :
    (World.genCell luck p sd c st).coinsByCell c = some (restoreCoinFromMemento m) ∧
      (World.genCell luck p sd c st).persisted c = Option.none := by
  rw [World.genCell_of_memento luck p sd c st m hp]
  have hcc : coinCoord (restoreCoinFromMemento m) = c := hsc c m hp
  unfold World.addCoin World.removePersisted
  constructor
  · simp [Function.update_apply, hcc]
  · simp [Function.update_apply]

theorem genCell_generate_self (luck : String → ℚ) (p : ℚ) (sd : SharedCellData)
    (c : ℤ × ℤ) (st : WorldSt) (hp : st.persisted c = Option.none)
    (hcb : st.coinsByCell c = Option.none) :
    (World.genCell luck p sd c st).coinsByCell c =
        generateCoinForCell luck p sd ⟨c.1, c.2⟩ ∧
      (World.genCell luck p sd c st).persisted c = Option.none := by
  have hb : (st.persisted c).bind (fun m => m) = Option.none := by rw [hp]; rfl
  rcases hg : generateCoinForCell luck p sd ⟨c.1, c.2⟩ with - | coin
  · rw [World.genCell_of_no_memento_none luck p sd c st hb hg]
    exact ⟨hcb, hp⟩
  · rw [World.genCell_of_no_memento_some luck p sd c st coin hb hg]
    have hcc : coinCoord coin = c := by
      have := generateCoinForCell_coord luck p sd ⟨c.1, c.2⟩ coin hg
      rw [coinCoord, this]
    unfold World.addCoin
    constructor
    · simp [Function.update_apply, hcc]
    · exact hp

theorem genCell_StoreCoherent (luck : String → ℚ) (p : ℚ) (sd : SharedCellData)
    (c : ℤ × ℤ) (st : WorldSt) (hsc : StoreCoherent st) :
    StoreCoherent (World.genCell luck p sd c st) := by
  intro c' m hm
  rcases eq_or_ne c' c with rfl | hne
  · rcases hp : st.persisted c' with - | mm
    · have := (genCell_generate_self luck p sd c' { st with coinsByCell := fun _ => Option.none } hp rfl).2
      rcases hg : generateCoinForCell luck p sd ⟨c'.1, c'.2⟩ with - | coin
      · have hb : (st.persisted c').bind (fun m => m) = Option.none := by rw [hp]; rfl
        rw [World.genCell_of_no_memento_none luck p sd c' st hb hg] at hm
        exact hsc c' m hm
      · have hb : (st.persisted c').bind (fun m => m) = Option.none := by rw [hp]; rfl
        rw [World.genCell_of_no_memento_some luck p sd c' st coin hb hg] at hm
        exact hsc c' m hm
    · rcases mm with - | m0
      · have hb : (st.persisted c').bind (fun m => m) = Option.none := by rw [hp]; rfl
        rcases hg : generateCoinForCell luck p sd ⟨c'.1, c'.2⟩ with - | coin
        · rw [World.genCell_of_no_memento_none luck p sd c' st hb hg] at hm
          exact hsc c' m hm
        · rw [World.genCell_of_no_memento_some luck p sd c' st coin hb hg] at hm
          exact hsc c' m hm
      · rw [(genCell_restore_self luck p sd c' st m0 hsc hp).2] at hm
        cases hm
  · rw [genCell_persisted_other luck p sd c st c' hne] at hm
    exact hsc c' m hm

theorem pruneFold_spec (l : List (ℤ × ℤ)) (st : WorldSt) (hwf : WFpair st)
    (hnd : l.Nodup) :
    WFpair (l.foldl (fun s c => World.pruneCell c s) st) ∧
      (∀ x, x ∉ l →
        (l.foldl (fun s c => World.pruneCell c s) st).coinsByCell x = st.coinsByCell x ∧
          (l.foldl (fun s c => World.pruneCell c s) st).persisted x = st.persisted x) ∧
      (∀ x, x ∈ l →
        (l.foldl (fun s c => World.pruneCell c s) st).coinsByCell x = Option.none) ∧
      (∀ x coin, x ∈ l → st.coinsByCell x = some coin → 1 < coin.history.length →
        (l.foldl (fun s c => World.pruneCell c s) st).persisted x =
          some (some (createCoinMemento coin))) ∧
      (∀ x coin, x ∈ l → st.coinsByCell x = some coin → ¬1 < coin.history.length →
        (l.foldl (fun s c => World.pruneCell c s) st).persisted x = st.persisted x) ∧
      (∀ x, x ∈ l → st.coinsByCell x = Option.none →
        (l.foldl (fun s c => World.pruneCell c s) st).persisted x = st.persisted x) := by
  induction l generalizing st with
  | nil =>
    exact ⟨hwf, fun x _ => ⟨rfl, rfl⟩, fun x hx => absurd hx (List.not_mem_nil x),
      fun x coin hx => absurd hx (List.not_mem_nil x),
      fun x coin hx => absurd hx (List.not_mem_nil x),
      fun x hx => absurd hx (List.not_mem_nil x)⟩
  | cons a as ih =>
    obtain ⟨ha, has⟩ := List.nodup_cons.mp hnd
    have hwf1 := pruneCell_WFpair a st hwf
    have IH := ih (World.pruneCell a st) hwf1 has
    rw [List.foldl_cons]
    refine ⟨IH.1, ?_, ?_, ?_, ?_, ?_⟩
    · intro x hx
      have hxa : x ≠ a := fun h => hx (h ▸ List.mem_cons_self a as)
      have hxas : x ∉ as := fun h => hx (List.mem_cons_of_mem a h)
      obtain ⟨h1, h2⟩ := IH.2.1 x hxas
      refine ⟨?_, ?_⟩
      · rw [h1, pruneCell_coinsByCell a st hwf x, if_neg hxa]
      · rw [h2, pruneCell_persisted_other a st x hxa]
    · intro x hx
      rcases List.mem_cons.mp hx with rfl | hxs
      · obtain ⟨h1, -⟩ := IH.2.1 x ha
        rw [h1, pruneCell_coinsByCell x st hwf x, if_pos rfl]
      · exact IH.2.2.1 x hxs
    · intro x coin hx hsome hlen
      rcases List.mem_cons.mp hx with rfl | hxs
      · obtain ⟨-, h2⟩ := IH.2.1 x ha
        rw [h2, pruneCell_persisted_self_interacted x st coin hsome hlen]
      · have hxa : x ≠ a := fun h => ha (h ▸ hxs)
        have hsome1 : (World.pruneCell a st).coinsByCell x = some coin := by
          rw [pruneCell_coinsByCell a st hwf x, if_neg hxa]
          exact hsome
        rw [IH.2.2.2.1 x coin hxs hsome1 hlen]
    · intro x coin hx hsome hlen
      rcases List.mem_cons.mp hx with rfl | hxs
      · obtain ⟨-, h2⟩ := IH.2.1 x ha
        rw [h2, pruneCell_persisted_self_fresh x st coin hsome hlen]
      · have hxa : x ≠ a := fun h => ha (h ▸ hxs)
        have hsome1 : (World.pruneCell a st).coinsByCell x = some coin := by
          rw [pruneCell_coinsByCell a st hwf x, if_neg hxa]
          exact hsome
        rw [IH.2.2.2.2.1 x coin hxs hsome1 hlen,
          pruneCell_persisted_other a st x hxa]
    · intro x hx hnone
      rcases List.mem_cons.mp hx with rfl | hxs
      · obtain ⟨-, h2⟩ := IH.2.1 x ha
        rw [h2, World.pruneCell_of_none x st hnone]
      · have hxa : x ≠ a := fun h => ha (h ▸ hxs)
        have hnone1 : (World.pruneCell a st).coinsByCell x = Option.none := by
          rw [pruneCell_coinsByCell a st hwf x, if_neg hxa]
          exact hnone
        rw [IH.2.2.2.2.2 x hxs hnone1, pruneCell_persisted_other a st x hxa]

theorem pruneFold_StoreCoherent (l : List (ℤ × ℤ)) (st : WorldSt) (hwf : WFpair st)
    (hsc : StoreCoherent st) :
    StoreCoherent (l.foldl (fun s c => World.pruneCell c s) st) := by
  induction l generalizing st with
  | nil => exact hsc
  | cons a as ih =>
    rw [List.foldl_cons]
    exact ih (World.pruneCell a st) (pruneCell_WFpair a st hwf)
      (pruneCell_StoreCoherent a st hwf hsc)

theorem genFold_spec (luck : String → ℚ) (p : ℚ) (sd : SharedCellData)
    (l : List (ℤ × ℤ)) (st : WorldSt) (hsc : StoreCoherent st) (hnd : l.Nodup) :
    StoreCoherent (l.foldl (fun s c => World.genCell luck p sd c s) st) ∧
      (∀ x, x ∉ l →
        (l.foldl (fun s c => World.genCell luck p sd c s) st).coinsByCell x =
            st.coinsByCell x ∧
          (l.foldl (fun s c => World.genCell luck p sd c s) st).persisted x =
            st.persisted x) ∧
      (∀ x m, x ∈ l → st.persisted x = some (some m) →
        (l.foldl (fun s c => World.genCell luck p sd c s) st).coinsByCell x =
            some (restoreCoinFromMemento m) ∧
          (l.foldl (fun s c => World.genCell luck p sd c s) st).persisted x =
            Option.none) ∧
      (∀ x, x ∈ l → st.persisted x = Option.none → st.coinsByCell x = Option.none →
        (l.foldl (fun s c => World.genCell luck p sd c s) st).coinsByCell x =
            generateCoinForCell luck p sd ⟨x.1, x.2⟩ ∧
          (l.foldl (fun s c => World.genCell luck p sd c s) st).persisted x =
            Option.none) := by
  induction l generalizing st with
  | nil =>
    exact ⟨hsc, fun x _ => ⟨rfl, rfl⟩, fun x m hx => absurd hx (List.not_mem_nil x),
      fun x hx => absurd hx (List.not_mem_nil x)⟩
  | cons a as ih =>
    obtain ⟨ha, has⟩ := List.nodup_cons.mp hnd
    have hsc1 := genCell_StoreCoherent luck p sd a st hsc
    have IH := ih (World.genCell luck p sd a st) hsc1 has
    rw [List.foldl_cons]
    refine ⟨IH.1, ?_, ?_, ?_⟩
    · intro x hx
      have hxa : x ≠ a := fun h => hx (h ▸ List.mem_cons_self a as)
      have hxas : x ∉ as := fun h => hx (List.mem_cons_of_mem a h)
      obtain ⟨h1, h2⟩ := IH.2.1 x hxas
      exact ⟨h1.trans (genCell_coinsByCell_other luck p sd a st hsc x hxa),
        h2.trans (genCell_persisted_other luck p sd a st x hxa)⟩
    · intro x m hx hm
      rcases List.mem_cons.mp hx with rfl | hxs
      · obtain ⟨h1, h2⟩ := IH.2.1 x ha
        obtain ⟨g1, g2⟩ := genCell_restore_self luck p sd x st m hsc hm
        exact ⟨h1.trans g1, h2.trans g2⟩
      · have hxa : x ≠ a := fun h => ha (h ▸ hxs)
        have hm1 : (World.genCell luck p sd a st).persisted x = some (some m) := by
          rw [genCell_persisted_other luck p sd a st x hxa]
          exact hm
        exact IH.2.2.1 x m hxs hm1
    · intro x hx hm hcb
      rcases List.mem_cons.mp hx with rfl | hxs
      · obtain ⟨h1, h2⟩ := IH.2.1 x ha
        obtain ⟨g1, g2⟩ := genCell_generate_self luck p sd x st hm hcb
        exact ⟨h1.trans g1, h2.trans g2⟩
      · have hxa : x ≠ a := fun h => ha (h ▸ hxs)
        have hm1 : (World.genCell luck p sd a st).persisted x = Option.none := by
          rw [genCell_persisted_other luck p sd a st x hxa]
          exact hm
        have hcb1 : (World.genCell luck p sd a st).coinsByCell x = Option.none := by
          rw [genCell_coinsByCell_other luck p sd a st hsc x hxa]
          exact hcb
        exact IH.2.2.2 x hxs hm1 hcb1

theorem World.updateCellsAround_eq (luck : String → ℚ) (p : ℚ) (sd : SharedCellData)
    (ctr : ℤ × ℤ) (range : ℤ) (st : WorldSt) :
    World.updateCellsAround luck p sd ctr range st =
      ((generateCellsAround ctr range).filter
          (fun c => decide (c ∉ st.active))).foldl
        (fun s c => World.genCell luck p sd c s)
        ((st.active.filter
            (fun c => decide (c ∉ generateCellsAround ctr range))).foldl
          (fun s c => World.pruneCell c s)
          { st with active := generateCellsAround ctr range }) := rfl

/-- C5: the selective-memory policy of `updateCellsAround`.  On eviction, a
cell holding a coin with more than its single spawn entry is snapshotted as a
memento keyed by the cell id and the coin removed; a cell holding an
un-interacted coin is dropped with the remembered store untouched at that key
(in particular, a cell with no remembered entry still has none, so re-entry
invokes the deterministic generator); on entry, a remembered memento is
restored as a live coin and consumed (its entry deleted), and a cell without
a remembered entry receives exactly the Content Generator's result. -/
theorem c5_eviction_memento_policy (luck : String → ℚ) (p : ℚ) (sd : SharedCellData)
    (ctr : ℤ × ℤ) (range : ℤ) (st : WorldSt) (hwf : WFpair st)
    (hdom : ∀ c, st.coinsByCell c ≠ Option.none → c ∈ st.active)
    (hnd : st.active.Nodup) (hsc : StoreCoherent st) :
    (∀ c coin, c ∈ st.active → c ∉ generateCellsAround ctr range →
      st.coinsByCell c = some coin → 1 < coin.history.length →
      (World.updateCellsAround luck p sd ctr range st).persisted c =
          some (some (createCoinMemento coin)) ∧
        (World.updateCellsAround luck p sd ctr range st).coinsByCell c =
          Option.none) ∧
    (∀ c coin, c ∈ st.active → c ∉ generateCellsAround ctr range →
      st.coinsByCell c = some coin → ¬1 < coin.history.length →
      (World.updateCellsAround luck p sd ctr range st).persisted c =
          st.persisted c ∧
        (World.updateCellsAround luck p sd ctr range st).coinsByCell c =
          Option.none) ∧
    (∀ c m, c ∈ generateCellsAround ctr range → c ∉ st.active →
      st.persisted c = some (some m) →
      (World.updateCellsAround luck p sd ctr range st).coinsByCell c =
          some (restoreCoinFromMemento m) ∧
        (World.updateCellsAround luck p sd ctr range st).persisted c =
          Option.none) ∧
    (∀ c, c ∈ generateCellsAround ctr range → c ∉ st.active →
      st.persisted c = Option.none →
      (World.updateCellsAround luck p sd ctr range st).coinsByCell c =
        generateCoinForCell luck p sd ⟨c.1, c.2⟩) := by
  have hmemE : ∀ x, x ∈ st.active.filter
      (fun c => decide (c ∉ generateCellsAround ctr range)) ↔
      x ∈ st.active ∧ x ∉ generateCellsAround ctr range := by
    intro x
    rw [List.mem_filter]
    simp
  have hmemN : ∀ x, x ∈ (generateCellsAround ctr range).filter
      (fun c => decide (c ∉ st.active)) ↔
      x ∈ generateCellsAround ctr range ∧ x ∉ st.active := by
    intro x
    rw [List.mem_filter]
    simp
  have hndE : (st.active.filter
      (fun c => decide (c ∉ generateCellsAround ctr range))).Nodup :=
    hnd.filter _
  have hndN : ((generateCellsAround ctr range).filter
      (fun c => decide (c ∉ st.active))).Nodup :=
    (nodup_generateCellsAround ctr range).filter _
  have P := pruneFold_spec
    (st.active.filter (fun c => decide (c ∉ generateCellsAround ctr range)))
    { st with active := generateCellsAround ctr range } hwf hndE
  have hsc2 := pruneFold_StoreCoherent
    (st.active.filter (fun c => decide (c ∉ generateCellsAround ctr range)))
    { st with active := generateCellsAround ctr range } hwf hsc
  have G := genFold_spec luck p sd
    ((generateCellsAround ctr range).filter (fun c => decide (c ∉ st.active)))
    ((st.active.filter (fun c => decide (c ∉ generateCellsAround ctr range))).foldl
      (fun s c => World.pruneCell c s)
      { st with active := generateCellsAround ctr range }) hsc2 hndN
  rw [World.updateCellsAround_eq]
  refine ⟨?_, ?_, ?_, ?_⟩
  · intro c coin hin hout hsome hlen
    have hcE : c ∈ st.active.filter
        (fun c => decide (c ∉ generateCellsAround ctr range)) :=
      (hmemE c).mpr ⟨hin, hout⟩
    have hcN : c ∉ (generateCellsAround ctr range).filter
        (fun c => decide (c ∉ st.active)) := fun h => hout ((hmemN c).mp h).1
    obtain ⟨g1, g2⟩ := G.2.1 c hcN
    refine ⟨?_, ?_⟩
    · rw [g2, P.2.2.2.1 c coin hcE hsome hlen]
    · rw [g1, P.2.2.1 c hcE]
  · intro c coin hin hout hsome hlen
    have hcE : c ∈ st.active.filter
        (fun c => decide (c ∉ generateCellsAround ctr range)) :=
      (hmemE c).mpr ⟨hin, hout⟩
    have hcN : c ∉ (generateCellsAround ctr range).filter
        (fun c => decide (c ∉ st.active)) := fun h => hout ((hmemN c).mp h).1
    obtain ⟨g1, g2⟩ := G.2.1 c hcN
    refine ⟨?_, ?_⟩
    · rw [g2, P.2.2.2.2.1 c coin hcE hsome hlen]
    · rw [g1, P.2.2.1 c hcE]
  · intro c m hin hout hm
    have hcN : c ∈ (generateCellsAround ctr range).filter
        (fun c => decide (c ∉ st.active)) := (hmemN c).mpr ⟨hin, hout⟩
    have hcE : c ∉ st.active.filter
        (fun c => decide (c ∉ generateCellsAround ctr range)) :=
      fun h => hout ((hmemE c).mp h).1
    obtain ⟨p1, p2⟩ := P.2.1 c hcE
    exact G.2.2.1 c m hcN (by rw [p2]; exact hm)
  · intro c hin hout hp
    have hcN : c ∈ (generateCellsAround ctr range).filter
        (fun c => decide (c ∉ st.active)) := (hmemN c).mpr ⟨hin, hout⟩
    have hcE : c ∉ st.active.filter
        (fun c => decide (c ∉ generateCellsAround ctr range)) :=
      fun h => hout ((hmemE c).mp h).1
    obtain ⟨p1, p2⟩ := P.2.1 c hcE
    have hcb : st.coinsByCell c = Option.none := by
      by_contra hne
      exact hout (hdom c hne)
    exact (G.2.2.2 c hcN (by rw [p2]; exact hp) (by rw [p1]; exact hcb)).1

/-- A coin in cell `(1,1)` that has been interacted with (two history
entries). -/
def coinItr : Coin :=
  ⟨"coin-1,1", 5, sdGame.getCenter 1 1, ⟨1, 1⟩,
    ["Spawned in cell 1,1", "Placed in cell 1,1"]⟩

/-- A remembered memento for cell `(0,0)`. -/
def m0 : CoinMemento :=
  ⟨"coin-0,0", 7, ⟨0, 0⟩, ⟨0, 0⟩, 0, 0, ["Spawned in cell 0,0", "Placed in cell 0,0"]⟩

/-- A concrete world: one interacted coin active at `(1,1)`, one remembered
memento at `(0,0)`. -/
def stW : WorldSt :=
  { active := [(1, 1)],
    activeCoins := fun i => if i = coinItr.id then some coinItr else Option.none,
    coinsByCell := fun c => if c = (1, 1) then some coinItr else Option.none,
    persisted := fun c => if c = (0, 0) then some (some m0) else Option.none }

theorem stW_WFpair : WFpair stW := by
  constructor
  · intro c coin h
    simp only [stW] at h ⊢
    split_ifs at h with hc
    cases h
    subst hc
    exact ⟨rfl, by simp⟩
  · intro i coin h
    simp only [stW] at h ⊢
    split_ifs at h with hc
    cases h
    subst hc
    exact ⟨rfl, by simp [coinCoord, coinItr]⟩

theorem stW_StoreCoherent : StoreCoherent stW := by
  intro c m h
  simp only [stW] at h
  split_ifs at h with hc
  cases h with
  | refl => exact hc.symm ▸ rfl

/-- Witness for C5: in the concrete world `stW`, moving the window to range 0
around `(0,0)` evicts the interacted coin at `(1,1)` into a memento, empties
that cell, restores the remembered memento at `(0,0)` as a live coin and
consumes its store entry. -/
theorem c5_witness :
    WFpair stW ∧ StoreCoherent stW ∧
      (World.updateCellsAround luckZero (1 / 10) sdGame (0, 0) 0 stW).persisted (1, 1) =
          some (some (createCoinMemento coinItr)) ∧
      (World.updateCellsAround luckZero (1 / 10) sdGame (0, 0) 0 stW).coinsByCell (1, 1) =
          Option.none ∧
      (World.updateCellsAround luckZero (1 / 10) sdGame (0, 0) 0 stW).coinsByCell (0, 0) =
          some (restoreCoinFromMemento m0) ∧
      (World.updateCellsAround luckZero (1 / 10) sdGame (0, 0) 0 stW).persisted (0, 0) =
          Option.none := by
  have hdom : ∀ c, stW.coinsByCell c ≠ Option.none → c ∈ stW.active := by
    intro c h
    simp only [stW] at h ⊢
    split_ifs at h with hc
    · simp [hc]
    · exact absurd rfl h
  have hnd : stW.active.Nodup := by simp [stW]
  have h := c5_eviction_memento_policy luckZero (1 / 10) sdGame (0, 0) 0 stW
    stW_WFpair hdom hnd stW_StoreCoherent
  have hin : ((1, 1) : ℤ × ℤ) ∈ stW.active := by simp [stW]
  have hout : ((1, 1) : ℤ × ℤ) ∉ generateCellsAround (0, 0) 0 := by decide
  have hsome : stW.coinsByCell (1, 1) = some coinItr := by simp [stW]
  have hlen : 1 < coinItr.history.length := by simp [coinItr]
  have hin0 : ((0, 0) : ℤ × ℤ) ∈ generateCellsAround (0, 0) 0 := by decide
  have hout0 : ((0, 0) : ℤ × ℤ) ∉ stW.active := by simp [stW]
  have hm : stW.persisted (0, 0) = some (some m0) := by simp [stW]
  obtain ⟨e1, e2⟩ := h.1 (1, 1) coinItr hin hout hsome hlen
  obtain ⟨r1, r2⟩ := h.2.2.1 (0, 0) m0 hin0 hout0 hm
  exact ⟨stW_WFpair, stW_StoreCoherent, e1, e2, r1, r2⟩

/-- JSON values (`JSON.parse` results). -/
inductive Json where
  | null : Json
  | bool (b : Bool) : Json
  | num (q : ℚ) : Json
  | str (s : String) : Json
  | arr (xs : List Json) : Json
  | obj (fields : List (String × Json)) : Json

/-- Object field lookup; later duplicate keys override earlier ones, as in
`JSON.parse`. -/
def lookupField : List (String × Json) → String → Option Json
  | [], _ => Option.none
  | (k, v) :: rest, key =>
    match lookupField rest key with
    | some v' => some v'
    | Option.none => if k = key then some v else Option.none

/-- JS truthiness of a JSON value. -/
def truthy : Json → Bool
  | Json.null => false
  | Json.bool b => b
  | Json.num q => if q = 0 then false else true
  | Json.str s => if s = "" then false else true
  | Json.arr _ => true
  | Json.obj _ => true

/-- The `typeof x === "object"` for a JSON value (true for objects, arrays and
`null`). -/
def isObjTy : Json → Bool
  | Json.null => true
  | Json.arr _ => true
  | Json.obj _ => true
  | _ => false

/-- JS property access `base[key]`: throws (`.error`) on a `null` base,
yields the field on an object base, and `undefined` (`.ok none`) otherwise. -/
def getProp : Json → String → Except Unit (Option Json)
  | Json.null, _ => Except.error ()
  | Json.obj fs, k => Except.ok (lookupField fs k)
  | _, _ => Except.ok Option.none

/-- A `CoinMemento` as accepted by `loadGameState` in `serialization.ts`: the
typeof checks constrain id to a string and the numeric fields to numbers, and
`history` only to be an array (its elements are not validated). -/
structure LoadedMemento where
  id : String
  value : ℚ
  lat : ℚ
  lng : ℚ
  q : ℚ
  r : ℚ
  history : List Json

/-- A `PersistedCoinEntry` as accepted by `loadGameState`. -/
structure LoadedEntry where
  cellId : String
  memento : Option LoadedMemento

/-- The `GameState` produced by `loadGameState`: `player` is passed through
unvalidated; `persistedCoins`/`inventoryCoin` are absent (`none`) when their
checks do not run or fail. -/
structure LoadedState where
  debugMovement : Bool
  player : Option Json
  persistedCoins : Option (List LoadedEntry)
  inventoryCoin : Option LoadedMemento

def getStrProp (m : Json) (k : String) : Option String :=
  match getProp m k with
  | Except.ok (some (Json.str s)) => some s
  | _ => Option.none

def getNumProp (m : Json) (k : String) : Option ℚ :=
  match getProp m k with
  | Except.ok (some (Json.num q)) => some q
  | _ => Option.none

def getArrProp (m : Json) (k : String) : Option (List Json) :=
  match getProp m k with
  | Except.ok (some (Json.arr xs)) => some xs
  | _ => Option.none

/-- The memento field validation of `loadGameState`
(`typeof m.id === "string" && typeof m.value === "number" && ... &&
Array.isArray(m.history)`). -/
def parseMemento (m : Json) : Option LoadedMemento :=
  match getStrProp m "id", getNumProp m "value", getNumProp m "lat",
      getNumProp m "lng", getNumProp m "q", getNumProp m "r",
      getArrProp m "history" with
  | some i, some v, some la, some ln, some qq, some rr, some h =>
    some ⟨i, v, la, ln, qq, rr, h⟩
  | _, _, _, _, _, _, _ => Option.none

/-- One iteration of the `persistedCoins` entry loop of `loadGameState`:
`e && typeof e.cellId === "string"`, then `e.memento === null` keeps an
explicit-empty entry, a truthy object memento is field-validated, anything
else is skipped. -/
def parseEntry (e : Json) : Option LoadedEntry :=
  if truthy e then
    match getProp e "cellId" with
    | Except.ok (some (Json.str cid)) =>
      (match getProp e "memento" with
      | Except.ok (some Json.null) => some ⟨cid, Option.none⟩
      | Except.ok (some m) =>
        if truthy m && isObjTy m then
          match parseMemento m with
          | some mem => some ⟨cid, some mem⟩
          | Option.none => Option.none
        else Option.none
      | _ => Option.none)
    | _ => Option.none
  else Option.none

/-- The `persistedCoins` loop of `loadGameState`: valid entries are pushed in
order, invalid entries silently skipped. -/
def parseEntries : List Json → List LoadedEntry
  | [] => []
  | e :: rest =>
    match parseEntry e with
    | some entry => entry :: parseEntries rest
    | Option.none => parseEntries rest

/-- Whether evaluating `parsed.config.debugMovement` throws: it does when
`parsed.config` is `undefined` or `null` (property access on those throws). -/
def configFails (parsed : Json) : Bool :=
  match getProp parsed "config" with
  | Except.error _ => true
  | Except.ok Option.none => true
  | Except.ok (some Json.null) => true
  | Except.ok (some _) => false

/-- The `Boolean(parsed.config.debugMovement)` when the access does not throw. -/
def configValue (parsed : Json) : Bool :=
  match getProp parsed "config" with
  | Except.ok (some cfg) =>
    (match getProp cfg "debugMovement" with
    | Except.ok (some v) => truthy v
    | _ => false)
  | _ => false

/-- The `loadGameState` of `serialization.ts`.  `raw = none` models a missing
stored string or a `JSON.parse` failure (the `try/catch` returns `null`);
the body checks `parsed && typeof parsed === "object"`, reads
`parsed.config.debugMovement` (any throw is caught, returning `null`), passes
`parsed.player` through unvalidated, validates `persistedCoins` entry-wise
and `inventoryCoin` field-wise. -/
def loadGameState (raw : Option Json) : Option LoadedState :=
  match raw with
  | Option.none => Option.none
  | some parsed =>
    if truthy parsed && isObjTy parsed then
      if configFails parsed then Option.none
      else some
        { debugMovement := configValue parsed,
          player :=
            (match getProp parsed "player" with
            | Except.ok v => v
            | Except.error _ => Option.none),
          persistedCoins :=
            (match getProp parsed "persistedCoins" with
            | Except.ok (some (Json.arr xs)) => some (parseEntries xs)
            | _ => Option.none),
          inventoryCoin :=
            (match getProp parsed "inventoryCoin" with
            | Except.ok (some inv) =>
              if truthy inv then parseMemento inv else Option.none
            | _ => Option.none) }
    else Option.none

/-- A malformed `persistedCoins` entry: its `memento` is neither `null` nor a
valid memento shape. -/
def cexBadEntry : Json :=
  Json.obj [("cellId", Json.str "0,0"), ("memento", Json.obj [("id", Json.num 5)])]

/-- A valid explicit-empty `persistedCoins` entry. -/
def cexGoodEntry : Json :=
  Json.obj [("cellId", Json.str "1,1"), ("memento", Json.null)]

/-- A stored state whose `persistedCoins` holds one malformed and one valid
entry. -/
def cexJson : Json :=
  Json.obj [("config", Json.obj [("debugMovement", Json.bool true)]),
    ("player", Json.str "garbage"),
    ("persistedCoins", Json.arr [cexBadEntry, cexGoodEntry])]

/-- C7 counterexample: on `cexJson`, `loadGameState` does not discard the
whole saved state — it silently drops the malformed `persistedCoins` entry
(`parseEntry cexBadEntry = none`) while keeping the valid one, and returns a
state (also passing the malformed `player` through unvalidated).  The claim
that any malformed saved state makes the loader fall back to "no saved
state", never partially applying, is therefore false. -/
theorem c7_counterexample :
    parseEntry cexBadEntry = Option.none ∧
      loadGameState (some cexJson) =
        some { debugMovement := true, player := some (Json.str "garbage"),
               persistedCoins := some [⟨"1,1", Option.none⟩],
               inventoryCoin := Option.none } :=
  ⟨rfl, rfl⟩

/-- C7 amended: `loadGameState` never throws — a missing/unparsable store, a
falsy or non-object root, and a throwing `config` access all fall back to
"no saved state" (`null`) — but validation of `persistedCoins` is entry-wise
(the loop keeps exactly the valid entries, in order, dropping malformed ones)
rather than all-or-nothing. -/
theorem c7_load_fallback_and_entrywise_validation :
    loadGameState Option.none = Option.none ∧
      (∀ parsed : Json, (truthy parsed && isObjTy parsed) = false →
        loadGameState (some parsed) = Option.none) ∧
      (∀ parsed : Json, configFails parsed = true →
        loadGameState (some parsed) = Option.none) ∧
      (∀ xs : List Json, parseEntries xs = xs.filterMap parseEntry) := by
  refine ⟨rfl, ?_, ?_, ?_⟩
  · intro parsed h
    simp [loadGameState, h]
  · intro parsed h
    simp [loadGameState, h]
  · intro xs
    induction xs with
    | nil => rfl
    | cons e rest ih =>
      rw [parseEntries, List.filterMap_cons]
      cases hp : parseEntry e
      · rw [ih]
      · rw [ih]

/-- Witness for C7 (amended): concrete fallback inputs and a concrete
entry-list filtering. -/
theorem c7_witness :
    loadGameState (some (Json.num 0)) = Option.none ∧
      loadGameState (some (Json.obj [])) = Option.none ∧
      parseEntries [Json.null, cexGoodEntry] =
        [Json.null, cexGoodEntry].filterMap parseEntry :=
  have h := c7_load_fallback_and_entrywise_validation
  ⟨h.2.1 (Json.num 0) rfl, h.2.2.1 (Json.obj []) rfl,
    h.2.2.2 [Json.null, cexGoodEntry]⟩
